import Mathlib

/-
Verification of the version-abstracted python interpreter introspection core
(python_interpreters.rs): line-table decoders (classic, 3.10, compact varint),
varint reading, frame lasti computation, string address resolution, and the
per-version capability accessors (gil_locked, native_thread_id, is_entry, frame).

Machine integers are modelled as Nat/Int; `as i32` truncation is `toInt32`;
bitwise ops on bytes are expressed through % and / by powers of two
(b & 63 = b % 64, b >> 3 = b / 8, bit tests via / and % 2). Rust panics
(index out of bounds, Option::unwrap on None) are modelled as `none`.
-/

/-- Truncation of a mathematical integer to a signed 32-bit value (`as i32`). -/
def toInt32 (n : Int) : Int := (n + 2 ^ 31) % 2 ^ 32 - 2 ^ 31

/-- Modelled from the spec: the byte offset of the `co_code_adaptive` array within
the 3.11 code object. The struct layout comes from generated bindings that are
not among the sources here; per the spec the adaptive bytecode array follows the
code-object header fields, so the offset is positive. 184 is the x86-64 CPython
3.11 layout value (header fields: var-object head, consts, names, exception
table, flag/count ints, localsplus names and kinds, filename, name, qualname,
linetable, weakreflist, code, linearray, firsttraceable, extra). -/
def co_code_adaptive_offset : Nat := 184

/-- FrameObject::lasti for the v3_11_0 and v3_12_0 `_PyInterpreterFrame` impls
(the two bodies are textually identical): the pointer difference between
`prev_instr` and the code object pointer `f_code` itself, truncated `as i32`.
Addresses are modelled as integers, `offset_from` on byte pointers is exact
subtraction. -/
def frame_lasti (prev_instr f_code : Int) : Int := toInt32 (prev_instr - f_code)

/-- The claim C2 version of lasti, following the specification words: the byte
distance between `prev_instr` and the start of the code object `co_code_adaptive`
array (which sits `adaptiveOff` bytes into the code object). -/
def frame_lasti_claim (prev_instr f_code : Int) (adaptiveOff : Nat) : Int :=
  toInt32 (prev_instr - (f_code + (adaptiveOff : Int)))

/-- Loop body of the classic (up to 3.9) `get_line_number` of
`PythonCodeObjectImpl`: consumes `(bytecode_delta, line_delta)` byte pairs while
at least two bytes remain, adds the bytecode delta, stops (returning the line
accumulated so far) once the address strictly exceeds `lasti`, otherwise applies
the line delta (bytes at least 0x80 reinterpreted as value - 0x100). -/
def classicScan (lasti : Int) : List Nat → Int → Int → Int
  | b :: l :: rest, line, addr =>
    if addr + (b : Int) > lasti then line
    else classicScan lasti rest
      (line + (if (l : Int) ≥ 0x80 then (l : Int) - 0x100 else (l : Int)))
      (addr + (b : Int))
  | _, line, _ => line

/-- Classic (up to 3.9) CodeObject::get_line_number. -/
def classic_get_line_number (first_lineno lasti : Int) (table : List Nat) : Int :=
  classicScan lasti table first_lineno 0

/-- Group a flat byte table into `(bytecode_delta, line_delta)` pairs, dropping a
trailing odd byte: the pair view used by the claim C4 description. -/
def pairsOf : List Nat → List (Nat × Nat)
  | b :: l :: rest => (b, l) :: pairsOf rest
  | _ => []

/-- The claim C4 description of the classic decoder, written over the pair view:
scan the pairs in order, accumulate bytecode deltas unsigned, stop at the first
pair whose cumulative bytecode address strictly exceeds `lasti` and return the
line number accumulated before applying that pair line delta; line delta bytes
at least 0x80 are reinterpreted as value - 0x100. -/
def classicSpecScan (lasti : Int) : List (Nat × Nat) → Int → Int → Int
  | [], line, _ => line
  | (b, l) :: rest, line, addr =>
    if addr + (b : Int) > lasti then line
    else classicSpecScan lasti rest
      (line + (if (l : Int) ≥ 0x80 then (l : Int) - 0x100 else (l : Int)))
      (addr + (b : Int))

/-- Loop body of the 3.10 `get_line_number`: reads `(delta, line_delta)` byte
pairs while two bytes remain; a line_delta byte equal to 0x80 (i8 value -128)
causes `continue`, skipping BOTH the line update and the bytecode address
update; otherwise the line and address are updated and the loop breaks (with the
updated line) once the address strictly exceeds the (already doubled) lasti. -/
def v3_10Scan (lasti : Int) : List Nat → Int → Int → Int
  | d :: l :: rest, line, addr =>
    if (if (l : Int) ≥ 128 then (l : Int) - 256 else (l : Int)) = -128 then
      v3_10Scan lasti rest line addr
    else
      if addr + (d : Int) > lasti then
        line + (if (l : Int) ≥ 128 then (l : Int) - 256 else (l : Int))
      else
        v3_10Scan lasti rest
          (line + (if (l : Int) ≥ 128 then (l : Int) - 256 else (l : Int)))
          (addr + (d : Int))
  | _, line, _ => line

/-- The 3.10 CodeObject::get_line_number: doubles the incoming lasti, then scans. -/
def v3_10_get_line_number (first_lineno lasti : Int) (table : List Nat) : Int :=
  v3_10Scan (2 * lasti) table first_lineno 0

/-- Modelled from the spec: the 3.10 scan as the specification (and the CPython
3.10 lnotab format notes cited by the source comment) describes it — on a
line_delta byte of 0x80 the line delta is skipped but the bytecode address still
advances by the paired delta byte, and the stopping comparison sees the advanced
address. -/
def v3_10SpecScan (lasti : Int) : List Nat → Int → Int → Int
  | d :: l :: rest, line, addr =>
    if (if (l : Int) ≥ 128 then (l : Int) - 256 else (l : Int)) = -128 then
      if addr + (d : Int) > lasti then line
      else v3_10SpecScan lasti rest line (addr + (d : Int))
    else
      if addr + (d : Int) > lasti then
        line + (if (l : Int) ≥ 128 then (l : Int) - 256 else (l : Int))
      else
        v3_10SpecScan lasti rest
          (line + (if (l : Int) ≥ 128 then (l : Int) - 256 else (l : Int)))
          (addr + (d : Int))
  | _, line, _ => line

/-- Modelled from the spec: the full 3.10 decoder with the sentinel handling the
specification describes (address advances on skipped pairs). -/
def v3_10_spec_get_line_number (first_lineno lasti : Int) (table : List Nat) : Int :=
  v3_10SpecScan (2 * lasti) table first_lineno 0

/-- The while loop of `read_varint`: `byte` is the byte just consumed, `ret` the
value accumulated so far, `shift` the current shift. While bit 6 of `byte` is
set (byte / 64 is odd, i.e. `byte & 64 != 0`), the next byte is consumed and its
low 6 bits (`b % 64`, i.e. `b & 63`) are added shifted 6 further left. Running
past the end of the table is an out-of-bounds panic in the source, modelled as
`none`. -/
def readVarintLoop (byte ret shift : Nat) : List Nat → Option (Nat × List Nat)
  | [] => if byte / 64 % 2 = 1 then none else some (ret, [])
  | b :: rest =>
    if byte / 64 % 2 = 1 then
      readVarintLoop b (ret + b % 64 * 2 ^ (shift + 6)) (shift + 6) rest
    else some (ret, b :: rest)

/-- read_varint: consume one byte (low 6 bits are the value seed), then the
continuation loop; returns the decoded value and the remaining bytes. -/
def read_varint : List Nat → Option (Nat × List Nat)
  | [] => none
  | b :: rest => readVarintLoop b (b % 64) 0 rest

/-- read_signed_varint: an unsigned varint whose low bit is the sign flag;
flag 1 negates the right-shifted value. -/
def read_signed_varint (t : List Nat) : Option (Int × List Nat) :=
  match read_varint t with
  | none => none
  | some (v, rest) =>
    some (if v % 2 = 1 then -((v / 2 : Nat) : Int) else ((v / 2 : Nat) : Int), rest)

/-- Modelled from the spec (no encoder exists in the source): the unsigned
varint encoding — little-endian 6-bit chunks, continuation signalled by bit 6
of every byte except the last. -/
def encode_varint (v : Nat) : List Nat :=
  if v < 64 then [v] else (64 + v % 64) :: encode_varint (v / 64)
termination_by v
decreasing_by simp_wf; omega

/-- Modelled from the spec: a signed varint is the unsigned varint of the
absolute value shifted left one, with the sign carried in the low bit
(1 meaning negate). -/
def encode_signed_varint (n : Int) : List Nat :=
  encode_varint (2 * n.natAbs + (if n < 0 then 1 else 0))

/-- The `match code` arm of the compact (3.11/3.12) get_line_number, computing
the line delta for one record and the table bytes remaining after it. `code` is
the high nibble field `(byte >> 3) & 15`. Fixed-width column skips advance the
index without a bounds check in the source (the loop then stops at the length
check), which `List.drop` reproduces; varint reads past the end are panics,
modelled as `none`. -/
def decodeLineDelta (code : Nat) (t : List Nat) : Option (Int × List Nat) :=
  if code = 15 then some (0, t)
  else if code = 14 then
    match read_signed_varint t with
    | none => none
    | some (delta, t1) =>
      match read_varint t1 with -- end line
      | none => none
      | some (_, t2) =>
        match read_varint t2 with -- start column
        | none => none
        | some (_, t3) =>
          match read_varint t3 with -- end column
          | none => none
          | some (_, t4) => some (delta, t4)
  else if code = 13 then read_signed_varint t
  else if 10 ≤ code ∧ code ≤ 12 then some ((code : Int) - 10, t.drop 2)
  else some (0, t.drop 1)

/-- The loop of the compact (3.11/3.12) get_line_number. Each iteration reads a
header byte, advances the bytecode address by `2 * ((byte & 7) + 1)`, decodes
the line delta for the record, applies it, and stops (non-strictly) once the
address reaches `lasti`. The `fuel` argument only bounds the recursion; every
iteration consumes at least the header byte, so starting it at the table length
never exhausts it (see `compactScan_fuel_irrelevant`). -/
def compactScan (lasti line addr : Int) : Nat → List Nat → Option Int
  | _, [] => some line
  | 0, _ :: _ => none
  | fuel + 1, byte :: rest =>
    match decodeLineDelta (byte / 8 % 16) rest with
    | none => none
    | some (ld, restAfter) =>
      if addr + ((byte % 8 + 1 : Nat) : Int) * 2 ≥ lasti then some (line + ld)
      else compactScan lasti (line + ld) (addr + ((byte % 8 + 1 : Nat) : Int) * 2) fuel restAfter

/-- The compact (3.11/3.12) CodeObject::get_line_number of
`CompactCodeObjectImpl`: first reduces lasti by the byte offset of
`co_code_adaptive` within the code object (`adaptiveOff`, supplied by the
generated bindings in the source), then scans the records. -/
def compact_get_line_number (adaptiveOff : Nat) (first_lineno lasti : Int)
    (table : List Nat) : Option Int :=
  compactScan (lasti - (adaptiveOff : Int)) first_lineno 0 table.length table

/-- The byte table of the repository regression test `test_py3_11_line_numbers`. -/
def test_py3_11_table : List Nat :=
  [128, 0, 221, 4, 8, 132, 74, 136, 118, 209, 4, 22, 212, 4, 22, 208, 4, 22,
   208, 4, 22, 208, 4, 22]

/-- StringObject::address of the `Python3Impl` (3.3+) `PyUnicodeObject` impl:
not compact strings return the `data.any` union value; compact ASCII strings
return base plus the size of `PyASCIIObject`; compact non-ASCII strings return
base plus the size of `PyCompactUnicodeObject`. The two header sizes come from
the per-version generated bindings and are passed as parameters; `compact` and
`ascii` are the bitfield accessor values. -/
def stringObjectAddress (sizeofASCIIObject sizeofCompactUnicodeObject : Nat)
    (compact ascii dataAny base : Nat) : Nat :=
  if compact = 0 then dataAny
  else if ascii = 1 then base + sizeofASCIIObject
  else base + sizeofCompactUnicodeObject

/-- The supported interpreter versions (one per bindings module in the source). -/
inductive PyVersion
  | v2_7_15 | v3_3_7 | v3_5_5 | v3_6_6 | v3_7_0 | v3_8_0 | v3_9_5 | v3_10_0
  | v3_11_0 | v3_12_0
deriving DecidableEq

/-- InterpreterState::gil_locked across versions: the `PythonCommonImpl` macro
(2.7 through 3.10) and the hand-written 3.11 impl return None; only the 3.12
impl reads the runtime GIL struct, returning `Some(gil.locked != 0)`.
`gilLockedValue` is the `_gil.locked._value` field. The function is total:
no version fails, unknown is `none`. -/
def interpreterGilLocked (v : PyVersion) (gilLockedValue : Int) : Option Bool :=
  match v with
  | .v3_12_0 => some (gilLockedValue != 0)
  | _ => none

/-- ThreadState::native_thread_id across versions: the `PythonCommonImpl` macro
(2.7 through 3.10) returns None; the hand-written 3.11 and 3.12 impls return
`Some(native_thread_id)`. Total: no version fails. -/
def threadStateNativeThreadId (v : PyVersion) (native_thread_id : Nat) : Option Nat :=
  match v with
  | .v3_11_0 | .v3_12_0 => some native_thread_id
  | _ => none

/-- The `FRAME_OWNED_BY_CSTACK` constant of the 3.12 is_entry impl. -/
def FRAME_OWNED_BY_CSTACK : Int := 3

/-- The frame fields consulted by the per-version is_entry impls: the 3.12
`owner` ownership tag (a c_char) and the 3.11 stored `is_entry` boolean. -/
structure FrameFields where
  owner : Int
  is_entry_flag : Bool

/-- FrameObject::is_entry across versions: 3.12 compares the `owner` tag with
`FRAME_OWNED_BY_CSTACK`; 3.11 returns the stored boolean; the
`PythonCommonImpl` macro versions (2.7 through 3.10) return the constant true. -/
def frameIsEntry (v : PyVersion) (f : FrameFields) : Bool :=
  match v with
  | .v3_12_0 => f.owner == FRAME_OWNED_BY_CSTACK
  | .v3_11_0 => f.is_entry_flag
  | _ => true

/-- The thread state field consulted by the pre-3.11 frame accessor: the stored
`frame` pointer (an address in the target process). -/
structure ThreadStateFields where
  frame : Nat

/-- ThreadState::frame across versions: the 3.11 and 3.12 impls return
`addr.unwrap()` (the panic on None is modelled as `none`); the
`PythonCommonImpl` macro versions ignore the argument and return the stored
`frame` field, never panicking (always `some`). -/
def threadStateFrame (v : PyVersion) (ts : ThreadStateFields) (addr : Option Nat) :
    Option Nat :=
  match v with
  | .v3_11_0 | .v3_12_0 =>
    match addr with
    | some a => some a
    | none => none
  | _ => some ts.frame

/-- The classic scan coincides with the claim C4 pair-view description of it. -/
theorem classicScan_eq_specScan (lasti : Int) :
    ∀ (table : List Nat) (line addr : Int),
      classicScan lasti table line addr = classicSpecScan lasti (pairsOf table) line addr
  | [], _, _ => rfl
  | [_], _, _ => rfl
  | b :: l :: rest, line, addr => by
    simp only [classicScan, pairsOf, classicSpecScan]
    split
    · rfl
    · exact classicScan_eq_specScan lasti rest _ _

/-- C1: in the 3.10 decoder a line_delta byte of 0x80 is skipped with `continue`
before the bytecode address is advanced, so the address does NOT advance for
such a pair, contrary to the claim (and to the CPython 3.10 format notes the
source comment cites). On first_lineno 1, lasti 1, table [4, 0x80, 2, 1] the
code yields 2, while the specified semantics (address advancing to 4 and the
stop comparison seeing it) yield 1. -/
theorem c1_py310_sentinel_divergence :
    v3_10_get_line_number 1 1 [4, 128, 2, 1] = 2
    ∧ v3_10_spec_get_line_number 1 1 [4, 128, 2, 1] = 1
    ∧ v3_10_get_line_number 1 1 [4, 128, 2, 1]
        ≠ v3_10_spec_get_line_number 1 1 [4, 128, 2, 1] := by decide

/-- C2 counterexample: with prev_instr pointing exactly at the start of the
co_code_adaptive array (f_code = 1000, array at 1000 + 184), lasti returns the
distance to the code object start, 184, not the distance to the adaptive array
start, 0 — so lasti is not the byte distance to co_code_adaptive. -/
theorem c2_lasti_counterexample :
    frame_lasti 1184 1000 = 184
    ∧ frame_lasti_claim 1184 1000 co_code_adaptive_offset = 0
    ∧ frame_lasti 1184 1000 ≠ frame_lasti_claim 1184 1000 co_code_adaptive_offset := by
  decide

/-- C2 amended: for 3.11 and 3.12, lasti returns the byte distance between
prev_instr and the start of the code object itself (the f_code pointer) as a
signed 32-bit value; the adaptive-array-relative offset the claim describes
equals that value minus the co_code_adaptive struct offset, a subtraction the
code defers to get_line_number. -/
theorem c2_lasti_from_code_object_start :
    (∀ prev_instr f_code : Int,
      frame_lasti prev_instr f_code = toInt32 (prev_instr - f_code))
    ∧ ∀ (prev_instr f_code : Int) (adaptiveOff : Nat),
        frame_lasti_claim prev_instr f_code adaptiveOff
          = toInt32 (frame_lasti prev_instr f_code - (adaptiveOff : Int)) :=
  ⟨fun _ _ => rfl, fun p f off => by
    unfold frame_lasti_claim frame_lasti toInt32
    norm_num
    omega⟩

/-- C4: the classic (up to 3.9) decoder scans (bytecode_delta, line_delta)
pairs in order, accumulating bytecode deltas unsigned and line deltas with
bytes at least 0x80 reinterpreted as value - 0x100, stops at the first pair
whose cumulative address strictly exceeds lasti and returns the line
accumulated before that pair; the empty table returns first_lineno for every
lasti, and pairs (2,1),(4,-1) from first_lineno 10 give 10 at lasti 1, 11 at
lasti 2, and 10 at lasti 7. -/
theorem c4_classic_decoder :
    (∀ first_lineno lasti : Int,
      classic_get_line_number first_lineno lasti [] = first_lineno)
    ∧ classic_get_line_number 10 1 [2, 1, 4, 255] = 10
    ∧ classic_get_line_number 10 2 [2, 1, 4, 255] = 11
    ∧ classic_get_line_number 10 7 [2, 1, 4, 255] = 10
    ∧ ∀ (first_lineno lasti : Int) (table : List Nat),
        classic_get_line_number first_lineno lasti table
          = classicSpecScan lasti (pairsOf table) first_lineno 0 :=
  ⟨fun _ _ => rfl, by decide, by decide, by decide,
   fun fl lasti table => classicScan_eq_specScan lasti table fl 0⟩

/-- C7: the 3.3+ StringObject::address returns the data union any slot when the
string is not compact, base plus size_of PyASCIIObject when compact and ASCII,
and base plus size_of PyCompactUnicodeObject when compact and non-ASCII. -/
theorem c7_string_address
    (sizeofASCIIObject sizeofCompactUnicodeObject compact ascii dataAny base : Nat) :
    (compact = 0 →
      stringObjectAddress sizeofASCIIObject sizeofCompactUnicodeObject
        compact ascii dataAny base = dataAny)
    ∧ (compact ≠ 0 → ascii = 1 →
      stringObjectAddress sizeofASCIIObject sizeofCompactUnicodeObject
        compact ascii dataAny base = base + sizeofASCIIObject)
    ∧ (compact ≠ 0 → ascii ≠ 1 →
      stringObjectAddress sizeofASCIIObject sizeofCompactUnicodeObject
        compact ascii dataAny base = base + sizeofCompactUnicodeObject) :=
  ⟨fun h => by simp [stringObjectAddress, h],
   fun h h1 => by simp [stringObjectAddress, h, h1],
   fun h h1 => by simp [stringObjectAddress, h, h1]⟩

/-- C7 witness: the three cases at concrete header sizes 48 and 72, base 100,
union slot 555. -/
theorem c7_string_address_witness :
    stringObjectAddress 48 72 1 1 555 100 = 148
    ∧ stringObjectAddress 48 72 1 0 555 100 = 172
    ∧ stringObjectAddress 48 72 0 1 555 100 = 555 :=
  ⟨(c7_string_address 48 72 1 1 555 100).2.1 (by decide) rfl,
   (c7_string_address 48 72 1 0 555 100).2.2 (by decide) (by decide),
   (c7_string_address 48 72 0 1 555 100).1 rfl⟩

/-- C8: gil_locked and native_thread_id are total on every supported version:
gil_locked is none (unknown) everywhere except 3.12, where it is
some (gil.locked != 0); native_thread_id is none before 3.11 and
some native_thread_id on 3.11 and 3.12. -/
theorem c8_gil_locked_native_thread_id (v : PyVersion) (gilLockedValue : Int)
    (native_thread_id : Nat) :
    (v ≠ .v3_12_0 → interpreterGilLocked v gilLockedValue = none)
    ∧ interpreterGilLocked .v3_12_0 gilLockedValue = some (gilLockedValue != 0)
    ∧ ((v = .v3_11_0 ∨ v = .v3_12_0) →
        threadStateNativeThreadId v native_thread_id = some native_thread_id)
    ∧ (v ≠ .v3_11_0 → v ≠ .v3_12_0 →
        threadStateNativeThreadId v native_thread_id = none) := by
  refine ⟨fun h => ?_, rfl, fun h => ?_, fun h1 h2 => ?_⟩
  · cases v <;> first | rfl | exact absurd rfl h
  · rcases h with rfl | rfl <;> rfl
  · cases v <;> first | rfl | exact absurd rfl h1 | exact absurd rfl h2

/-- C8 witness: gil_locked is unknown on 3.9 and known on 3.12;
native_thread_id is known on 3.11 and unknown on 3.9. -/
theorem c8_gil_locked_native_thread_id_witness :
    interpreterGilLocked .v3_9_5 7 = none
    ∧ interpreterGilLocked .v3_12_0 7 = some true
    ∧ threadStateNativeThreadId .v3_11_0 42 = some 42
    ∧ threadStateNativeThreadId .v3_9_5 42 = none :=
  ⟨(c8_gil_locked_native_thread_id .v3_9_5 7 42).1 (by decide),
   (c8_gil_locked_native_thread_id .v3_12_0 7 42).2.1,
   (c8_gil_locked_native_thread_id .v3_11_0 7 42).2.2.1 (Or.inl rfl),
   (c8_gil_locked_native_thread_id .v3_9_5 7 42).2.2.2 (by decide) (by decide)⟩

/-- C9: is_entry is the owner tag comparison with FRAME_OWNED_BY_CSTACK = 3 on
3.12, the stored boolean on 3.11, and the constant true on every earlier
version regardless of the frame contents. -/
theorem c9_is_entry (v : PyVersion) (f : FrameFields) :
    FRAME_OWNED_BY_CSTACK = 3
    ∧ (v = .v3_12_0 → (frameIsEntry v f = true ↔ f.owner = FRAME_OWNED_BY_CSTACK))
    ∧ (v = .v3_11_0 → frameIsEntry v f = f.is_entry_flag)
    ∧ (v ≠ .v3_11_0 → v ≠ .v3_12_0 → frameIsEntry v f = true) := by
  refine ⟨rfl, fun h => ?_, fun h => ?_, fun h1 h2 => ?_⟩
  · subst h; simp [frameIsEntry]
  · subst h; rfl
  · cases v <;> first | rfl | exact absurd rfl h1 | exact absurd rfl h2

/-- C9 witness: a 3.12 frame owned by the C stack is an entry frame, a 3.11
frame reports its stored flag, and a 3.7 frame is always an entry frame. -/
theorem c9_is_entry_witness :
    frameIsEntry .v3_12_0 ⟨3, false⟩ = true
    ∧ frameIsEntry .v3_11_0 ⟨0, false⟩ = false
    ∧ frameIsEntry .v3_7_0 ⟨0, false⟩ = true :=
  ⟨((c9_is_entry .v3_12_0 ⟨3, false⟩).2.1 rfl).mpr rfl,
   (c9_is_entry .v3_11_0 ⟨0, false⟩).2.2.1 rfl,
   (c9_is_entry .v3_7_0 ⟨0, false⟩).2.2.2 (by decide) (by decide)⟩

/-- C10: on 3.11 and 3.12, frame returns the unwrapped supplied address (and
the None case is the unwrap panic); on every earlier version it ignores the
argument and returns the stored frame field, never panicking. -/
theorem c10_frame (v : PyVersion) (ts : ThreadStateFields) (addr : Option Nat)
    (a : Nat) :
    ((v = .v3_11_0 ∨ v = .v3_12_0) → addr = some a →
      threadStateFrame v ts addr = some a)
    ∧ ((v = .v3_11_0 ∨ v = .v3_12_0) → threadStateFrame v ts none = none)
    ∧ (v ≠ .v3_11_0 → v ≠ .v3_12_0 → threadStateFrame v ts addr = some ts.frame) := by
  refine ⟨fun hv ha => ?_, fun hv => ?_, fun h1 h2 => ?_⟩
  · subst ha; rcases hv with rfl | rfl <;> rfl
  · rcases hv with rfl | rfl <;> rfl
  · cases v <;> first | rfl | exact absurd rfl h1 | exact absurd rfl h2

/-- C10 witness: a supplied address is returned unwrapped on 3.12, None panics
on 3.12, and 3.7 returns the stored frame field for any argument. -/
theorem c10_frame_witness :
    threadStateFrame .v3_12_0 ⟨77⟩ (some 9000) = some 9000
    ∧ threadStateFrame .v3_12_0 ⟨77⟩ none = none
    ∧ threadStateFrame .v3_7_0 ⟨77⟩ none = some 77 :=
  ⟨(c10_frame .v3_12_0 ⟨77⟩ (some 9000) 9000).1 (Or.inr rfl) rfl,
   (c10_frame .v3_12_0 ⟨77⟩ none 0).2.1 (Or.inr rfl),
   (c10_frame .v3_7_0 ⟨77⟩ none 0).2.2 (by decide) (by decide)⟩

/-- C5: the compact decoder first reduces lasti by the co_code_adaptive byte
offset, and its scan stops at a record whose cumulative bytecode address
reaches the adjusted lasti non-strictly, returning the line number after
applying that record's delta (and otherwise continues with the updated state,
so the stop happens at the first such record). -/
theorem c5_compact_adjust_and_stop :
    (∀ (adaptiveOff : Nat) (first_lineno lasti : Int) (table : List Nat),
        compact_get_line_number adaptiveOff first_lineno lasti table
          = compact_get_line_number 0 first_lineno (lasti - (adaptiveOff : Int)) table)
    ∧ (∀ (lasti line addr : Int) (fuel byte : Nat) (rest : List Nat) (ld : Int)
        (restAfter : List Nat),
        decodeLineDelta (byte / 8 % 16) rest = some (ld, restAfter) →
        addr + ((byte % 8 + 1 : Nat) : Int) * 2 ≥ lasti →
        compactScan lasti line addr (fuel + 1) (byte :: rest) = some (line + ld))
    ∧ (∀ (lasti line addr : Int) (fuel byte : Nat) (rest : List Nat) (ld : Int)
        (restAfter : List Nat),
        decodeLineDelta (byte / 8 % 16) rest = some (ld, restAfter) →
        addr + ((byte % 8 + 1 : Nat) : Int) * 2 < lasti →
        compactScan lasti line addr (fuel + 1) (byte :: rest)
          = compactScan lasti (line + ld) (addr + ((byte % 8 + 1 : Nat) : Int) * 2)
              fuel restAfter) := by
  refine ⟨fun off fl lasti t => ?_, fun lasti line addr fuel byte rest ld restAfter hdec hge => ?_,
    fun lasti line addr fuel byte rest ld restAfter hdec hlt => ?_⟩
  · simp [compact_get_line_number]
  · simp only [compactScan, hdec]
    rw [if_pos hge]
  · simp only [compactScan, hdec]
    rw [if_neg (not_le.mpr hlt)]

/-- C5 witness: one record with header byte 128 (address span 2, opcode 0, one
column byte) stops a scan with adjusted lasti 2 and returns the line after the
(zero) delta of that record. -/
theorem c5_compact_adjust_and_stop_witness :
    compactScan 2 4 0 2 [128, 0] = some (4 + 0) :=
  c5_compact_adjust_and_stop.2.1 2 4 0 1 128 [0] 0 [] (by decide) (by decide)

set_option maxRecDepth 4000 in
/-- C3: the regression case of test_py3_11_line_numbers — first_lineno 4,
lasti 214, the recorded table — returns line 5, for every co_code_adaptive
offset up to 211 (the actual 3.11 layout offset is 184). -/
theorem c3_regression_line_5 :
    ∀ adaptiveOff : Nat, adaptiveOff ≤ 211 →
      compact_get_line_number adaptiveOff 4 214 test_py3_11_table = some 5 := by decide

/-- C3 witness: the regression case at the modelled 3.11 layout offset. -/
theorem c3_regression_line_5_witness :
    compact_get_line_number co_code_adaptive_offset 4 214 test_py3_11_table = some 5 :=
  c3_regression_line_5 co_code_adaptive_offset (by decide)

/-- The continuation loop decodes an encoded varint appended at its input,
accumulating it at the current shift. -/
theorem readVarintLoop_encode (v : Nat) :
    ∀ byte ret shift : Nat, byte / 64 % 2 = 1 →
      readVarintLoop byte ret shift (encode_varint v)
        = some (ret + v * 2 ^ (shift + 6), []) := by
  induction v using Nat.strong_induction_on with
  | _ v ih =>
    intro byte ret shift hb
    rw [encode_varint]
    split
    · rename_i hlt
      simp [readVarintLoop, hb, Nat.div_eq_of_lt hlt, Nat.mod_eq_of_lt hlt]
    · rename_i hge
      rw [readVarintLoop, if_pos hb]
      have h1 : (64 + v % 64) % 64 = v % 64 := by omega
      have h2 : (64 + v % 64) / 64 % 2 = 1 := by omega
      rw [h1, ih (v / 64) (Nat.div_lt_self (by omega) (by norm_num)) _ _ _ h2]
      have hpow : (2 : Nat) ^ (shift + 6 + 6) = 2 ^ (shift + 6) * 64 := by
        rw [pow_add]; norm_num
      have hv : 64 * (v / 64) + v % 64 = v := Nat.div_add_mod v 64
      have key : ret + v % 64 * 2 ^ (shift + 6) + v / 64 * 2 ^ (shift + 6 + 6)
          = ret + v * 2 ^ (shift + 6) := by
        rw [hpow]
        conv_rhs => rw [← hv]
        ring
      rw [key]

/-- Unsigned varint round trip: decoding an encoded value returns the value
and consumes the encoding exactly. -/
theorem read_varint_encode (v : Nat) : read_varint (encode_varint v) = some (v, []) := by
  rw [encode_varint]
  split
  · rename_i hlt
    simp [read_varint, readVarintLoop, Nat.div_eq_of_lt hlt, Nat.mod_eq_of_lt hlt]
  · rename_i hge
    rw [read_varint]
    have h1 : (64 + v % 64) % 64 = v % 64 := by omega
    have h2 : (64 + v % 64) / 64 % 2 = 1 := by omega
    rw [h1, readVarintLoop_encode (v / 64) _ _ _ h2]
    have hpow : (2 : Nat) ^ (0 + 6) = 64 := by norm_num
    have key : v % 64 + v / 64 * 2 ^ (0 + 6) = v := by rw [hpow]; omega
    rw [key]

/-- C6: for every integer n in [-2^30, 2^30), encoding with the 6-bit-chunk
little-endian scheme (sign in the low bit, 1 meaning negate) and decoding with
read_signed_varint returns n (and consumes the encoding exactly). -/
theorem c6_signed_varint_roundtrip (n : Int) (h1 : -(2 ^ 30) ≤ n) (h2 : n < 2 ^ 30) :
    read_signed_varint (encode_signed_varint n) = some (n, []) := by
  have hu := read_varint_encode (2 * n.natAbs + (if n < 0 then 1 else 0))
  unfold encode_signed_varint read_signed_varint
  simp only [hu]
  rcases lt_or_le n 0 with hn | hn
  · rw [if_pos hn]
    have hm : (2 * n.natAbs + 1) % 2 = 1 := by omega
    rw [if_pos hm]
    simp only [Option.some.injEq, Prod.mk.injEq, and_true]
    omega
  · rw [if_neg (not_lt.mpr hn)]
    have hm : ¬ (2 * n.natAbs + 0) % 2 = 1 := by omega
    rw [if_neg hm]
    simp only [Option.some.injEq, Prod.mk.injEq, and_true]
    omega

/-- C6 witness: the round trip at n = -5 (encoded as the single byte 11). -/
theorem c6_signed_varint_roundtrip_witness :
    read_signed_varint (encode_signed_varint (-5)) = some (-5, []) :=
  c6_signed_varint_roundtrip (-5) (by norm_num) (by norm_num)

/-- The varint continuation loop never lengthens the remaining byte list. -/
theorem readVarintLoop_length :
    ∀ (t : List Nat) (byte ret shift v : Nat) (r : List Nat),
      readVarintLoop byte ret shift t = some (v, r) → r.length ≤ t.length
  | [], byte, ret, shift, v, r => by
    intro h
    simp only [readVarintLoop] at h
    split at h
    · exact absurd h (by simp)
    · cases h
      exact Nat.le_refl _
  | b :: rest, byte, ret, shift, v, r => by
    intro h
    simp only [readVarintLoop] at h
    split at h
    · have := readVarintLoop_length rest b _ _ v r h
      simp only [List.length_cons]
      omega
    · cases h
      exact Nat.le_refl _

/-- read_varint consumes at least one byte. -/
theorem read_varint_length :
    ∀ (t : List Nat) (v : Nat) (r : List Nat),
      read_varint t = some (v, r) → r.length < t.length
  | [], v, r => by intro h; exact absurd h (by simp [read_varint])
  | b :: rest, v, r => by
    intro h
    simp only [read_varint] at h
    have := readVarintLoop_length rest b _ _ v r h
    simp only [List.length_cons]
    omega

/-- read_signed_varint consumes at least one byte. -/
theorem read_signed_varint_length (t : List Nat) (d : Int) (r : List Nat)
    (h : read_signed_varint t = some (d, r)) : r.length < t.length := by
  unfold read_signed_varint at h
  cases hrv : read_varint t with
  | none => rw [hrv] at h; exact absurd h (by simp)
  | some p =>
    obtain ⟨v, r0⟩ := p
    rw [hrv] at h
    simp only [Option.some.injEq, Prod.mk.injEq] at h
    obtain ⟨-, rfl⟩ := h
    exact read_varint_length t v r0 hrv

/-- Decoding one record line delta never lengthens the remaining byte list. -/
theorem decodeLineDelta_length (code : Nat) (t : List Nat) (ld : Int) (r : List Nat)
    (h : decodeLineDelta code t = some (ld, r)) : r.length ≤ t.length := by
  unfold decodeLineDelta at h
  split_ifs at h
  · cases h; exact Nat.le_refl _
  · split at h
    · exact Option.noConfusion h
    · rename_i d1 t1 h14
      have l1 := read_signed_varint_length t d1 t1 h14
      split at h
      · exact Option.noConfusion h
      · rename_i v2 t2 hb
        have l2 := read_varint_length t1 v2 t2 hb
        split at h
        · exact Option.noConfusion h
        · rename_i v3 t3 hc
          have l3 := read_varint_length t2 v3 t3 hc
          split at h
          · exact Option.noConfusion h
          · rename_i v4 t4 hd
            have l4 := read_varint_length t3 v4 t4 hd
            simp only [Option.some.injEq, Prod.mk.injEq] at h
            obtain ⟨-, rfl⟩ := h
            omega
  · exact Nat.le_of_lt (read_signed_varint_length t ld r h)
  · cases h
    simp only [List.length_drop]
    omega
  · cases h
    simp only [List.length_drop]
    omega

/-- The fuel argument of compactScan is irrelevant once it is at least the
table length: every iteration consumes at least its header byte, so the
fuel-exhaustion branch never fires for the initial fuel (the table length)
used by compact_get_line_number. -/
theorem compactScan_fuel_irrelevant :
    ∀ (n : Nat) (t : List Nat), t.length ≤ n →
      ∀ f1 f2 : Nat, t.length ≤ f1 → t.length ≤ f2 →
        ∀ lasti line addr : Int,
          compactScan lasti line addr f1 t = compactScan lasti line addr f2 t := by
  intro n
  induction n with
  | zero =>
    intro t ht f1 f2 h1 h2 lasti line addr
    have ht0 : t = [] := List.eq_nil_of_length_eq_zero (by omega)
    subst ht0
    simp only [compactScan]
  | succ n ih =>
    intro t ht f1 f2 h1 h2 lasti line addr
    match t with
    | [] => simp only [compactScan]
    | byte :: rest =>
      simp only [List.length_cons] at ht h1 h2
      obtain ⟨g1, rfl⟩ : ∃ g, f1 = g + 1 := ⟨f1 - 1, by omega⟩
      obtain ⟨g2, rfl⟩ : ∃ g, f2 = g + 1 := ⟨f2 - 1, by omega⟩
      simp only [compactScan]
      cases hdec : decodeLineDelta (byte / 8 % 16) rest with
      | none => rfl
      | some p =>
        obtain ⟨ld, restAfter⟩ := p
        have hlen := decodeLineDelta_length _ _ _ _ hdec
        by_cases hc : addr + ((byte % 8 + 1 : Nat) : Int) * 2 ≥ lasti
        · simp only [if_pos hc]
        · simp only [if_neg hc]
          exact ih restAfter (by omega) g1 g2 (by omega) (by omega) _ _ _
